import Mathlib

/-!
# Verification of the slkrd rendezvous-and-transfer core

Shallow embedding of the slkrd file-transfer program (`src/main.rs`,
`src/config.rs`) in Lean 4, with theorems settling the specification
claims about passcode handling, UDP discovery, the wire header, the
chunk loops on both the send and receive paths, progress accounting
and the error taxonomy.

Strings are modelled as `List Char`, byte sequences as `List Nat`
(each element a byte value), and the effectful loops as structurally
recursive functions over the finite list of I/O outcomes they consume.
-/

set_option autoImplicit false

namespace Slkrd

/-- Constant `MAX_RETRIES` from `main.rs` line 19. -/
def MAX_RETRIES : Nat := 3

/-- Constant `BUFFER_SIZE` from `main.rs` line 20: the sender's read
buffer is `1024 * 1024` bytes (1 MiB). -/
def BUFFER_SIZE : Nat := 1024 * 1024

/-- Constant `PASSCODE_LENGTH` from `main.rs` line 23. -/
def PASSCODE_LENGTH : Nat := 6

/-- The `enum SlkrdError` of `main.rs` (lines 25-34) together with `Ok`,
plus one model-only constructor `pending`, denoting that the embedded
loop's finite list of environment events ran out while the real loop
would still be spinning (it marks non-termination within the supplied
events, never a returned value). -/
inductive SlkrdResult : Type
  | ok : SlkrdResult
  | fileNotFound : SlkrdResult
  | invalidPasscode : SlkrdResult
  | connectionFailed : SlkrdResult
  | transferError : SlkrdResult
  | fileExists : SlkrdResult
  | timeout : SlkrdResult
  | incompleteTransfer (received expected : Nat) : SlkrdResult
  | pending : SlkrdResult
deriving DecidableEq

/-- The `CHARSET` of `generate_passcode` (`main.rs` line 93): the ten
ASCII digits. -/
def CHARSET : List Char := ['0', '1', '2', '3', '4', '5', '6', '7', '8', '9']

/-- `generate_passcode` (`main.rs` lines 92-101): builds a
`PASSCODE_LENGTH`-character string whose `i`-th character is
`CHARSET[idx]` for `idx = rng.gen_range(0..CHARSET.len())`; the random
source is modelled as the function `draws` giving the `i`-th in-range
index drawn. -/
def generate_passcode (draws : Nat → Fin 10) : List Char :=
  (List.range PASSCODE_LENGTH).map fun i => CHARSET.get (Fin.cast (by rfl) (draws i))

/-- `validate_passcode` (`main.rs` lines 103-109): accepts exactly the
candidates of length `PASSCODE_LENGTH` all of whose characters are
ASCII digits; modelled as the `Bool` of the code's success condition
(`true` ↔ the Rust function returns `Ok(())`, `false` ↔
`Err(SlkrdError::InvalidPasscode)`). -/
def validate_passcode (passcode : List Char) : Bool :=
  passcode.length = PASSCODE_LENGTH && passcode.all Char.isDigit

/-- The discovery-message tag `"SLKRD:"` (`main.rs` lines 221 and 292). -/
def slkrdTag : List Char := ['S', 'L', 'K', 'R', 'D', ':']

/-- The sender's discovery announcement `format!("SLKRD:{}:{}", passcode,
filename)` (`main.rs` line 221). -/
def mkAnnouncement (passcode filename : List Char) : List Char :=
  slkrdTag ++ passcode ++ ':' :: filename

/-- `str::strip_prefix`: `stripTag p s = some r` iff `s = p ++ r`. -/
def stripTag : List Char → List Char → Option (List Char)
  | [], s => some s
  | _ :: _, [] => none
  | p :: ps, c :: cs => if p = c then stripTag ps cs else none

/-- Rust's `str::split(':')`: splits on every colon; a string with no
colon yields one field, and `n` colons yield `n + 1` fields (possibly
empty). -/
def splitOnColon : List Char → List (List Char)
  | [] => [[]]
  | c :: rest =>
    if c = ':' then [] :: splitOnColon rest
    else
      match splitOnColon rest with
      | [] => [[c]]
      | h :: t => (c :: h) :: t

/-- The receiver's announcement filter (`main.rs` lines 291-297): a
datagram is accepted iff it starts with `"SLKRD:"` and the remainder
splits on `':'` into exactly two fields with the first equal to the
target passcode; the accepted value is the second field (the
filename). -/
def parseAnnouncement (passcode : List Char) (msg : List Char) : Option (List Char) :=
  match stripTag slkrdTag msg with
  | none => none
  | some content =>
    match splitOnColon content with
    | [p, f] => if p = passcode then some f else none
    | _ => none

/-- The receiver's discovery loop (`main.rs` lines 284-309) over the
finite list of datagrams the socket yields: the first accepted
announcement's filename, `none` if every supplied datagram is skipped
(the real loop would keep waiting). -/
def findSender (passcode : List Char) : List (List Char) → Option (List Char)
  | [] => none
  | msg :: rest =>
    match parseAnnouncement passcode msg with
    | some f => some f
    | none => findSender passcode rest

/-- Little-endian byte encoding: `leBytes k n` is the low `k` bytes of
`n`, least significant first; `u64::to_le_bytes` is `leBytes 8`. -/
def leBytes : Nat → Nat → List Nat
  | 0, _ => []
  | k + 1, n => n % 256 :: leBytes k (n / 256)

/-- `file_size.to_le_bytes()` (`main.rs` line 230): the 8-byte
little-endian encoding written on the stream. -/
def u64le (n : Nat) : List Nat :=
  leBytes 8 n

/-- `u64::from_le_bytes` (`main.rs` line 321): decodes a little-endian
byte list. -/
def leToNat : List Nat → Nat
  | [] => 0
  | b :: rest => b + 256 * leToNat rest

/-- One I/O action on the paired TCP stream: a write of concrete bytes,
an exact-length read (`read_exact`), or a read-to-end (`read_to_end`). -/
inductive StreamAct : Type
  | write (bytes : List Nat) : StreamAct
  | readExact (n : Nat) : StreamAct
  | readAll : StreamAct
deriving DecidableEq

/-- The ordered TCP-stream actions `send_file` performs on an accepted
connection (`main.rs` lines 230-241): write the 8-byte little-endian
file size, write the serialized SDP offer, read the answer to end.
The file payload travels over the WebRTC data channel, not this
stream. -/
def senderStreamActs (fileSize : Nat) (offerSdp : List Nat) : List StreamAct :=
  [StreamAct.write (u64le fileSize), StreamAct.write offerSdp, StreamAct.readAll]

/-- The ordered TCP-stream actions `receive_file` performs after
connecting (`main.rs` lines 319-338): read exactly 8 size bytes, read
the offer to end, write the serialized SDP answer. -/
def receiverStreamActs (answerSdp : List Nat) : List StreamAct :=
  [StreamAct.readExact 8, StreamAct.readAll, StreamAct.write answerSdp]

/-- Result of the sender's chunk loop (`main.rs` lines 247-256):
the final `transferred` counter, the `print_progress` event values in
order, and the sizes of the successive `channel.send` payload writes. -/
structure SendOut : Type where
  transferred : Nat
  events : List Nat
  chunks : List Nat
deriving DecidableEq

/-- The sender's chunk loop (`main.rs` lines 250-256): while
`transferred < file_size`, read `n` bytes from the file (`reads` lists
the successive `file.read` return values; an exhausted list reads 0 at
end of file), stop on a zero-length read, otherwise send the `n` bytes
over the channel, add `n` to `transferred` and emit a progress
event. -/
def sendRun (fileSize : Nat) : List Nat → Nat → SendOut
  | reads, t =>
    if t < fileSize then
      match reads with
      | [] => ⟨t, [], []⟩
      | n :: rest =>
        if n = 0 then ⟨t, [], []⟩
        else
          let o := sendRun fileSize rest (t + n)
          ⟨o.transferred, (t + n) :: o.events, n :: o.chunks⟩
    else ⟨t, [], []⟩

/-- The error kinds a `?` inside the accepted-connection block of
`send_file` can propagate (`main.rs` lines 230-253): I/O errors mapped
through `impl From<io::Error> for SlkrdError` (lines 36-46), the
`ConnectionFailed` of the signaling steps, and the `TransferError` of
`channel.send`. `IncompleteTransfer` is not among them. -/
inductive ConnErr : Type
  | fileNotFound : ConnErr
  | invalidPasscode : ConnErr
  | timeout : ConnErr
  | fileExists : ConnErr
  | transferError : ConnErr
  | connectionFailed : ConnErr
deriving DecidableEq

/-- The `SlkrdResult` a propagated connection error becomes. -/
def ConnErr.toResult : ConnErr → SlkrdResult
  | ConnErr.fileNotFound => SlkrdResult.fileNotFound
  | ConnErr.invalidPasscode => SlkrdResult.invalidPasscode
  | ConnErr.timeout => SlkrdResult.timeout
  | ConnErr.fileExists => SlkrdResult.fileExists
  | ConnErr.transferError => SlkrdResult.transferError
  | ConnErr.connectionFailed => SlkrdResult.connectionFailed

/-- One iteration's outcome of `listener.accept()` in `send_file`
(`main.rs` lines 224-272): `wouldBlock` (no pending peer; the code
sleeps and continues), `acceptErr` (a real accept error; the code
increments `retries` and continues), `connFail e` (a connection was
accepted but a `?` inside its block propagated error `e`), or
`conn reads` (a connection was accepted and its chunk loop ran with
`reads` as the successive `file.read` results). -/
inductive AcceptOutcome : Type
  | wouldBlock : AcceptOutcome
  | acceptErr : AcceptOutcome
  | connFail (e : ConnErr) : AcceptOutcome
  | conn (reads : List Nat) : AcceptOutcome
deriving DecidableEq

/-- The sender's outer loop `while retries < MAX_RETRIES` (`main.rs`
lines 220-275) over the finite list of accept outcomes the environment
yields: a `wouldBlock` leaves `retries` unchanged, an `acceptErr`
increments it, a completed chunk loop (`transferred == file_size`)
returns `Ok`, an incomplete one falls through to the next iteration,
and exhausting the retry budget returns `ConnectionFailed`
(line 275). -/
def sendLoop (fileSize : Nat) : List AcceptOutcome → Nat → SlkrdResult
  | outs, retries =>
    if retries < MAX_RETRIES then
      match outs with
      | [] => SlkrdResult.pending
      | AcceptOutcome.wouldBlock :: rest => sendLoop fileSize rest retries
      | AcceptOutcome.acceptErr :: rest => sendLoop fileSize rest (retries + 1)
      | AcceptOutcome.connFail e :: _ => e.toResult
      | AcceptOutcome.conn reads :: rest =>
        if (sendRun fileSize reads 0).transferred = fileSize then SlkrdResult.ok
        else sendLoop fileSize rest retries
    else SlkrdResult.connectionFailed

/-- `send_file` (`main.rs` lines 197-276): fail with `FileNotFound` when
the source path does not exist, otherwise run the accept loop from
`retries = 0`. -/
def send_file (sourceExists : Bool) (fileSize : Nat) (outs : List AcceptOutcome) : SlkrdResult :=
  if sourceExists then sendLoop fileSize outs 0 else SlkrdResult.fileNotFound

/-- Result of the receiver's chunk loop (`main.rs` lines 341-354): the
terminal result, the `print_progress` event values in order, and the
sizes of the successive `file.write_all` calls. -/
structure RecvOut : Type where
  result : SlkrdResult
  events : List Nat
  writes : List Nat
deriving DecidableEq

/-- The final byte-count check of `receive_file` (`main.rs` lines
352-357): `Ok` iff `received == file_size`, otherwise
`IncompleteTransfer(received, file_size)`. -/
def finishRecv (fileSize received : Nat) : SlkrdResult :=
  if received = fileSize then SlkrdResult.ok
  else SlkrdResult.incompleteTransfer received fileSize

/-- The receiver's chunk loop (`main.rs` lines 343-350): while
`received < file_size`, take the next `channel.receive()` result size
(`chunks` lists them; an exhausted list yields empty data), break on
empty data, otherwise write it to the file, add its length to
`received` and emit a progress event; then apply the final byte-count
check. -/
def recvRun (fileSize : Nat) : List Nat → Nat → RecvOut
  | chunks, received =>
    if received < fileSize then
      match chunks with
      | [] => ⟨finishRecv fileSize received, [], []⟩
      | c :: rest =>
        if c = 0 then ⟨finishRecv fileSize received, [], []⟩
        else
          let o := recvRun fileSize rest (received + c)
          ⟨o.result, (received + c) :: o.events, c :: o.writes⟩
    else ⟨finishRecv fileSize received, [], []⟩

/-- A destination-file effect of the receive path: `File::create`
(`main.rs` line 340) or a `file.write_all` of a chunk of the given
size (line 347). -/
inductive FileEff : Type
  | create (name : List Char) : FileEff
  | writeBytes (n : Nat) : FileEff
deriving DecidableEq

/-- The environment a run of `receive_file` consumes: the datagrams the
discovery socket yields, which paths exist on disk, the file size the
sender declares on the stream, and the sizes of the successive
`channel.receive()` results. -/
structure RecvEnv : Type where
  datagrams : List (List Char)
  onDisk : List Char → Bool
  fileSize : Nat
  chunks : List Nat

/-- `receive_file` (`main.rs` lines 278-358): validate the passcode,
scan discovery datagrams for the first accepted announcement (its
second field is the destination filename), fail with `FileExists` if
that path already exists — before any file is created — otherwise
create the destination and run the chunk loop. Returns the terminal
result, the progress events, and the destination-file effects in
order. -/
def receive_file (passcode : List Char) (env : RecvEnv) : SlkrdResult × List Nat × List FileEff :=
  if validate_passcode passcode then
    match findSender passcode env.datagrams with
    | none => (SlkrdResult.pending, [], [])
    | some filename =>
      if env.onDisk filename then (SlkrdResult.fileExists, [], [])
      else
        let o := recvRun env.fileSize env.chunks 0
        (o.result, o.events, FileEff.create filename :: o.writes.map FileEff.writeBytes)
  else (SlkrdResult.invalidPasscode, [], [])

/-- `struct Config` (`config.rs` lines 3-8). -/
structure Config : Type where
  chunk_size : Nat
  stun_servers : List (List Char)
  turn_servers : List (List Char)

/-- `Config::default` (`config.rs` lines 10-18): `chunk_size = 65536`,
one Google STUN server, no TURN servers. This default is never
consulted by the transfer paths in `main.rs`, which use `BUFFER_SIZE`
instead. -/
def Config.default : Config :=
  ⟨65536,
   [['s', 't', 'u', 'n', ':', 's', 't', 'u', 'n', '.', 'l', '.', 'g', 'o', 'o',
     'g', 'l', 'e', '.', 'c', 'o', 'm', ':', '1', '9', '3', '0', '2']],
   []⟩

/-- Modelled from the spec: the wire header the specification describes
(`[8 bytes file_size LE][length-prefixed filename]`) with a 1-byte
length prefix; this definition follows the spec's words, not the code,
so the two can be compared. -/
def specWireHeader1 (fileSize : Nat) (filename : List Nat) : List Nat :=
  u64le fileSize ++ filename.length :: filename

/-- Modelled from the spec: the same spec wire header with the
alternative 8-byte length prefix the spec mentions. -/
def specWireHeader8 (fileSize : Nat) (filename : List Nat) : List Nat :=
  u64le fileSize ++ u64le filename.length ++ filename

/-- The bytes `send_file` writes on the stream before the SDP signaling
exchange and before any payload byte (`main.rs` line 230): exactly the
8-byte little-endian file size, with no filename. -/
def senderHeaderBytes (fileSize : Nat) : List Nat :=
  u64le fileSize

/-! ## Passcode lemmas -/

/-- Every character of `CHARSET` is an ASCII digit. -/
theorem charset_get_isDigit :
    ∀ j : Fin 10, (CHARSET.get (Fin.cast (by rfl) j)).isDigit = true := by
  decide

/-- An ASCII digit is a character of `CHARSET`. -/
theorem isDigit_mem_CHARSET {c : Char} (h : c.isDigit = true) : c ∈ CHARSET := by
  simp only [Char.isDigit, Bool.and_eq_true, decide_eq_true_eq] at h
  obtain ⟨h1, h2⟩ := h
  have hn1 : 48 ≤ c.toNat := h1
  have hn2 : c.toNat ≤ 57 := h2
  have hofn := Char.ofNat_toNat c
  set n := c.toNat with hn
  interval_cases n <;> (rw [← hofn]; decide)

/-- A character of `CHARSET` is an ASCII digit. -/
theorem mem_CHARSET_isDigit {c : Char} (h : c ∈ CHARSET) : c.isDigit = true := by
  fin_cases h <;> decide

/-- A generated passcode has length `PASSCODE_LENGTH`. -/
theorem generate_passcode_length (draws : Nat → Fin 10) :
    (generate_passcode draws).length = PASSCODE_LENGTH := by
  simp [generate_passcode]

/-- Every character of a generated passcode is an ASCII digit. -/
theorem generate_passcode_all_digit (draws : Nat → Fin 10) :
    (generate_passcode draws).all Char.isDigit = true := by
  simp only [generate_passcode, List.all_eq_true, List.mem_map, List.mem_range]
  rintro c ⟨i, -, rfl⟩
  exact charset_get_isDigit (draws i)

/-- `validate_passcode` accepts every output of `generate_passcode`. -/
theorem validate_generate (draws : Nat → Fin 10) :
    validate_passcode (generate_passcode draws) = true := by
  simp [validate_passcode, generate_passcode_length draws, generate_passcode_all_digit draws]

/-- `validate_passcode` rejects every candidate of the wrong length. -/
theorem validate_wrong_length {s : List Char} (h : s.length ≠ PASSCODE_LENGTH) :
    validate_passcode s = false := by
  simp [validate_passcode, h]

/-- `validate_passcode` rejects every candidate containing a character
outside `CHARSET`. -/
theorem validate_outside_alphabet {s : List Char} {c : Char} (hc : c ∈ s)
    (hout : c ∉ CHARSET) : validate_passcode s = false := by
  have hnd : c.isDigit = false := by
    cases hd : c.isDigit with
    | false => rfl
    | true => exact absurd (isDigit_mem_CHARSET hd) hout
  simp only [validate_passcode, Bool.and_eq_false_iff]
  right
  simp only [List.all_eq_false]
  exact ⟨c, hc, by simp [hnd]⟩

/-- A validated passcode contains no colon (the colon is not an ASCII
digit), so it never interferes with the announcement field split. -/
theorem validate_no_colon {s : List Char} (h : validate_passcode s = true) : ':' ∉ s := by
  intro hmem
  simp only [validate_passcode, Bool.and_eq_true, List.all_eq_true] at h
  have := h.2 ':' hmem
  simp [Char.isDigit] at this

/-! ## Discovery-announcement lemmas -/

/-- `stripTag p s` succeeds with remainder `r` exactly when `s = p ++ r`. -/
theorem stripTag_eq_some {p : List Char} : ∀ {s r : List Char},
    stripTag p s = some r ↔ s = p ++ r := by
  induction p with
  | nil => intro s r; simp [stripTag]
  | cons a ps ih =>
    intro s r
    cases s with
    | nil => simp [stripTag]
    | cons c cs =>
      simp only [stripTag]
      by_cases hac : a = c
      · subst hac
        simp [ih]
      · simp only [if_neg hac]
        constructor
        · intro h; exact absurd h (by simp)
        · intro h
          injection h with h1 _
          exact absurd h1.symm hac

/-- `splitOnColon` never returns the empty list of fields. -/
theorem splitOnColon_ne_nil : ∀ s : List Char, splitOnColon s ≠ [] := by
  intro s
  cases s with
  | nil => simp [splitOnColon]
  | cons c rest =>
    simp only [splitOnColon]
    by_cases h : c = ':'
    · simp [h]
    · simp only [if_neg h]
      cases hs : splitOnColon rest <;> simp

/-- A colon-free string splits into the single field it is. -/
theorem splitOnColon_no_colon : ∀ {s : List Char}, ':' ∉ s → splitOnColon s = [s] := by
  intro s
  induction s with
  | nil => intro _; rfl
  | cons c rest ih =>
    intro h
    have hc : ¬ c = ':' := fun hc => h (by simp [hc])
    have hrest : ':' ∉ rest := fun hr => h (by simp [hr])
    simp only [splitOnColon, if_neg hc, ih hrest]

/-- `splitOnColon` yields exactly one field iff the string is that field
and contains no colon. -/
theorem splitOnColon_eq_singleton : ∀ {s x : List Char},
    splitOnColon s = [x] ↔ s = x ∧ ':' ∉ x := by
  intro s
  induction s with
  | nil =>
    intro x
    simp only [splitOnColon]
    constructor
    · intro h; injection h with h1 _; exact ⟨h1.symm ▸ rfl, by simp [← h1]⟩
    · rintro ⟨rfl, -⟩; rfl
  | cons c rest ih =>
    intro x
    by_cases hc : c = ':'
    · subst hc
      simp only [splitOnColon, if_pos rfl]
      constructor
      · intro h
        injection h with _ h2
        exact absurd h2 (splitOnColon_ne_nil rest)
      · rintro ⟨rfl, hx⟩
        exact absurd (by simp : ':' ∈ ':' :: rest) hx
    · simp only [splitOnColon, if_neg hc]
      cases hs : splitOnColon rest with
      | nil => exact absurd hs (splitOnColon_ne_nil rest)
      | cons hd tl =>
        constructor
        · intro h
          injection h with h1 h2
          subst h2
          have : splitOnColon rest = [hd] := hs
          obtain ⟨rfl, hhd⟩ := ih.mp this
          refine ⟨by rw [← h1], ?_⟩
          rw [← h1]
          intro hmem
          rcases List.mem_cons.mp hmem with h' | h'
          · exact hc h'.symm
          · exact hhd h'
        · rintro ⟨rfl, hx⟩
          have hrest : ':' ∉ rest := fun hr => hx (by simp [hr])
          have := splitOnColon_no_colon hrest
          rw [this] at hs
          injection hs with h1 h2
          rw [← h1, ← h2]

/-- `splitOnColon` yields exactly two fields iff the string is the two
colon-free fields joined by a single colon. -/
theorem splitOnColon_eq_pair : ∀ {s a b : List Char},
    splitOnColon s = [a, b] ↔ s = a ++ ':' :: b ∧ ':' ∉ a ∧ ':' ∉ b := by
  intro s
  induction s with
  | nil =>
    intro a b
    constructor
    · intro h; injection h with _ h2; injection h2
    · rintro ⟨h, -, -⟩
      exact absurd h (by simp)
  | cons c rest ih =>
    intro a b
    by_cases hc : c = ':'
    · subst hc
      simp only [splitOnColon, if_pos rfl]
      constructor
      · intro h
        injection h with h1 h2
        obtain ⟨rfl, hb⟩ := splitOnColon_eq_singleton.mp h2
        exact ⟨by rw [← h1]; rfl, by rw [← h1]; simp, hb⟩
      · rintro ⟨heq, ha, hb⟩
        cases a with
        | nil =>
          injection heq with _ h2
          subst h2
          rw [splitOnColon_no_colon hb]
          simp
        | cons x xs =>
          injection heq with h1 _
          exact absurd h1.symm (fun hx => ha (by simp [hx]))
    · simp only [splitOnColon, if_neg hc]
      cases hs : splitOnColon rest with
      | nil => exact absurd hs (splitOnColon_ne_nil rest)
      | cons hd tl =>
        constructor
        · intro h
          injection h with h1 h2
          subst h2
          have hpair : splitOnColon rest = [hd, b] := hs
          obtain ⟨hrest, hhd, hb⟩ := ih.mp hpair
          subst hrest
          refine ⟨by rw [← h1]; rfl, ?_, hb⟩
          rw [← h1]
          intro hmem
          rcases List.mem_cons.mp hmem with h' | h'
          · exact hc h'.symm
          · exact hhd h'
        · rintro ⟨heq, ha, hb⟩
          cases a with
          | nil =>
            injection heq with h1 _
            exact absurd h1 hc
          | cons x xs =>
            injection heq with h1 h2
            subst h1
            have hxs : ':' ∉ xs := fun hx => ha (by simp [hx])
            have : splitOnColon rest = [xs, b] := ih.mpr ⟨h2, hxs, hb⟩
            rw [this] at hs
            injection hs with h1' h2'
            rw [← h1', ← h2']

/-- The receiver's filter accepts a datagram with filename `f` exactly
when the datagram is the tag, the target passcode, a separating colon
and the colon-free `f`, with the passcode itself colon-free. -/
theorem parseAnnouncement_eq_some {pass msg f : List Char} :
    parseAnnouncement pass msg = some f ↔
      msg = slkrdTag ++ pass ++ ':' :: f ∧ ':' ∉ pass ∧ ':' ∉ f := by
  constructor
  · intro h
    unfold parseAnnouncement at h
    split at h
    · exact absurd h (by simp)
    · rename_i content hst
      split at h
      · rename_i p f' heq
        by_cases hp : p = pass
        · subst hp
          rw [if_pos rfl] at h
          injection h with hf
          subst hf
          obtain ⟨hcontent, hp', hf'⟩ := splitOnColon_eq_pair.mp heq
          subst hcontent
          have hmsg : msg = slkrdTag ++ (p ++ ':' :: f') := stripTag_eq_some.mp hst
          exact ⟨by rw [hmsg, List.append_assoc], hp', hf'⟩
        · rw [if_neg hp] at h
          exact absurd h (by simp)
      · exact absurd h (by simp)
  · rintro ⟨rfl, hpass, hf⟩
    have hst : stripTag slkrdTag (slkrdTag ++ (pass ++ ':' :: f)) = some (pass ++ ':' :: f) :=
      stripTag_eq_some.mpr rfl
    have hsp : splitOnColon (pass ++ ':' :: f) = [pass, f] :=
      splitOnColon_eq_pair.mpr ⟨rfl, hpass, hf⟩
    simp [parseAnnouncement, hst, hsp]

/-- A skipped datagram leaves the discovery search running on the
remaining datagrams. -/
theorem findSender_skip {pass msg : List Char} {rest : List (List Char)}
    (h : parseAnnouncement pass msg = none) :
    findSender pass (msg :: rest) = findSender pass rest := by
  simp [findSender, h]

/-- A sender announcement whose filename contains a colon is rejected by
the matching-passcode receiver filter. -/
theorem parseAnnouncement_colon_filename {pass name : List Char} (h : ':' ∈ name) :
    parseAnnouncement pass (mkAnnouncement pass name) = none := by
  cases hp : parseAnnouncement pass (mkAnnouncement pass name) with
  | none => rfl
  | some f =>
    obtain ⟨heq, -, hf⟩ := parseAnnouncement_eq_some.mp hp
    unfold mkAnnouncement at heq
    rw [List.append_assoc, List.append_assoc] at heq
    have h2 : pass ++ ':' :: name = pass ++ ':' :: f :=
      List.append_cancel_left heq
    have h3 : ':' :: name = ':' :: f := List.append_cancel_left h2
    injection h3 with _ h4
    exact absurd (h4 ▸ h) hf

/-! ## Sender chunk-loop lemmas -/

/-- Every progress event of the sender's chunk loop is at least the
starting counter. -/
theorem sendRun_events_ge (fileSize : Nat) : ∀ (reads : List Nat) (t : Nat),
    ∀ e ∈ (sendRun fileSize reads t).events, t ≤ e := by
  intro reads
  induction reads with
  | nil =>
    intro t e he
    rw [sendRun] at he
    by_cases ht : t < fileSize <;> simp [ht] at he
  | cons n rest ih =>
    intro t e he
    rw [sendRun] at he
    by_cases ht : t < fileSize
    · by_cases hn : n = 0
      · simp [ht, hn] at he
      · simp only [if_pos ht, if_neg hn] at he
        rcases List.mem_cons.mp he with rfl | hmem
        · omega
        · have := ih (t + n) e hmem
          omega
    · simp [ht] at he

/-- The sender's progress events are monotonically non-decreasing. -/
theorem sendRun_chain (fileSize : Nat) : ∀ (reads : List Nat) (t : Nat),
    List.Chain' (· ≤ ·) (sendRun fileSize reads t).events := by
  intro reads
  induction reads with
  | nil =>
    intro t
    rw [sendRun]
    by_cases ht : t < fileSize <;> simp [ht]
  | cons n rest ih =>
    intro t
    rw [sendRun]
    by_cases ht : t < fileSize
    · by_cases hn : n = 0
      · simp [ht, hn]
      · simp only [if_pos ht, if_neg hn]
        refine List.chain'_cons'.mpr ⟨?_, ih (t + n)⟩
        intro b hb
        exact sendRun_events_ge fileSize rest (t + n) b (List.mem_of_mem_head? hb)
    · simp [ht]

/-- An empty event list means the chunk loop moved no bytes. -/
theorem sendRun_events_nil (fileSize : Nat) (reads : List Nat) (t : Nat)
    (h : (sendRun fileSize reads t).events = []) :
    (sendRun fileSize reads t).transferred = t := by
  cases reads with
  | nil =>
    rw [sendRun]
    by_cases ht : t < fileSize <;> simp [ht]
  | cons n rest =>
    rw [sendRun] at h ⊢
    by_cases ht : t < fileSize
    · by_cases hn : n = 0
      · simp [ht, hn]
      · simp [ht, hn] at h
    · simp [ht]

/-- When the sender's chunk loop ends with `transferred = file_size`,
the last progress event it emitted carries exactly `file_size`. -/
theorem sendRun_last (fileSize : Nat) : ∀ (reads : List Nat) (t : Nat),
    (sendRun fileSize reads t).transferred = fileSize → t < fileSize →
    (sendRun fileSize reads t).events.getLast? = some fileSize := by
  intro reads
  induction reads with
  | nil =>
    intro t h ht
    rw [sendRun] at h
    simp [ht] at h
    omega
  | cons n rest ih =>
    intro t h ht
    rw [sendRun] at h ⊢
    by_cases hn : n = 0
    · simp [ht, hn] at h
      omega
    · simp only [if_pos ht, if_neg hn] at h ⊢
      by_cases htn : t + n < fileSize
      · have hlast := ih (t + n) h htn
        cases hev : (sendRun fileSize rest (t + n)).events with
        | nil =>
          have := sendRun_events_nil fileSize rest (t + n) hev
          omega
        | cons b l =>
          rw [hev] at hlast
          simpa [List.getLast?_cons_cons] using hlast
      · have : (sendRun fileSize rest (t + n)) = ⟨t + n, [], []⟩ := by
          rw [sendRun.eq_def]
          simp [htn]
        rw [this] at h ⊢
        simp only at h
        simp [h]

/-- Every chunk the sender writes is bounded by the bound on the
`file.read` results (the read buffer size). -/
theorem sendRun_chunks_le (fileSize B : Nat) : ∀ (reads : List Nat) (t : Nat),
    (∀ n ∈ reads, n ≤ B) → ∀ c ∈ (sendRun fileSize reads t).chunks, c ≤ B := by
  intro reads
  induction reads with
  | nil =>
    intro t _ c hc
    rw [sendRun] at hc
    by_cases ht : t < fileSize <;> simp [ht] at hc
  | cons n rest ih =>
    intro t hb c hc
    rw [sendRun] at hc
    by_cases ht : t < fileSize
    · by_cases hn : n = 0
      · simp [ht, hn] at hc
      · simp only [if_pos ht, if_neg hn] at hc
        rcases List.mem_cons.mp hc with rfl | hmem
        · exact hb c (by simp)
        · exact ih (t + n) (fun m hm => hb m (by simp [hm])) c hmem
    · simp [ht] at hc

/-! ## Receiver chunk-loop lemmas -/

/-- When the supplied nonempty chunks run out `k` bytes short of
`file_size`, the receiver's loop ends with
`IncompleteTransfer(k, file_size)`. -/
theorem recvRun_out_of_data (fileSize : Nat) : ∀ (chunks : List Nat) (t : Nat),
    0 ∉ chunks → t + chunks.sum < fileSize →
    (recvRun fileSize chunks t).result =
      SlkrdResult.incompleteTransfer (t + chunks.sum) fileSize := by
  intro chunks
  induction chunks with
  | nil =>
    intro t _ hlt
    simp only [List.sum_nil, Nat.add_zero] at hlt ⊢
    rw [recvRun]
    simp [hlt, finishRecv, Nat.ne_of_lt hlt]
  | cons c rest ih =>
    intro t h0 hlt
    have hc : c ≠ 0 := fun h => h0 (by simp [← h])
    have ht : t < fileSize := by
      have : c + rest.sum ≥ 0 := Nat.zero_le _
      simp only [List.sum_cons] at hlt
      omega
    rw [recvRun]
    simp only [if_pos ht, if_neg hc]
    have := ih (t + c) (fun h => h0 (by simp [h])) (by simp only [List.sum_cons] at hlt; omega)
    simpa [List.sum_cons, Nat.add_assoc] using this

/-- Every progress event of the receiver's loop is at least the starting
counter. -/
theorem recvRun_events_ge (fileSize : Nat) : ∀ (chunks : List Nat) (t : Nat),
    ∀ e ∈ (recvRun fileSize chunks t).events, t ≤ e := by
  intro chunks
  induction chunks with
  | nil =>
    intro t e he
    rw [recvRun] at he
    by_cases ht : t < fileSize <;> simp [ht] at he
  | cons c rest ih =>
    intro t e he
    rw [recvRun] at he
    by_cases ht : t < fileSize
    · by_cases hc : c = 0
      · simp [ht, hc] at he
      · simp only [if_pos ht, if_neg hc] at he
        rcases List.mem_cons.mp he with rfl | hmem
        · omega
        · have := ih (t + c) e hmem
          omega
    · simp [ht] at he

/-- The receiver's progress events are monotonically non-decreasing. -/
theorem recvRun_chain (fileSize : Nat) : ∀ (chunks : List Nat) (t : Nat),
    List.Chain' (· ≤ ·) (recvRun fileSize chunks t).events := by
  intro chunks
  induction chunks with
  | nil =>
    intro t
    rw [recvRun]
    by_cases ht : t < fileSize <;> simp [ht]
  | cons c rest ih =>
    intro t
    rw [recvRun]
    by_cases ht : t < fileSize
    · by_cases hc : c = 0
      · simp [ht, hc]
      · simp only [if_pos ht, if_neg hc]
        refine List.chain'_cons'.mpr ⟨?_, ih (t + c)⟩
        intro b hb
        exact recvRun_events_ge fileSize rest (t + c) b (List.mem_of_mem_head? hb)
    · simp [ht]

/-- An empty event list means the receiver's loop wrote no bytes. -/
theorem recvRun_events_nil (fileSize : Nat) (chunks : List Nat) (t : Nat)
    (h : (recvRun fileSize chunks t).events = []) :
    (recvRun fileSize chunks t).result = finishRecv fileSize t := by
  cases chunks with
  | nil =>
    rw [recvRun]
    by_cases ht : t < fileSize <;> simp [ht]
  | cons c rest =>
    rw [recvRun] at h ⊢
    by_cases ht : t < fileSize
    · by_cases hc : c = 0
      · simp [ht, hc]
      · simp [ht, hc] at h
    · simp [ht]

/-- On a successful receive of a positive-size file, the last progress
event carries exactly `file_size`. -/
theorem recvRun_last (fileSize : Nat) : ∀ (chunks : List Nat) (t : Nat),
    (recvRun fileSize chunks t).result = SlkrdResult.ok → t < fileSize →
    (recvRun fileSize chunks t).events.getLast? = some fileSize := by
  intro chunks
  induction chunks with
  | nil =>
    intro t h ht
    rw [recvRun] at h
    simp [ht, finishRecv, Nat.ne_of_lt ht] at h
  | cons c rest ih =>
    intro t h ht
    rw [recvRun] at h ⊢
    by_cases hc : c = 0
    · simp [ht, hc, finishRecv, Nat.ne_of_lt ht] at h
    · simp only [if_pos ht, if_neg hc] at h ⊢
      by_cases htc : t + c < fileSize
      · have hlast := ih (t + c) h htc
        cases hev : (recvRun fileSize rest (t + c)).events with
        | nil =>
          have := recvRun_events_nil fileSize rest (t + c) hev
          rw [this] at h
          simp [finishRecv, Nat.ne_of_lt htc] at h
        | cons b l =>
          rw [hev] at hlast
          simpa [List.getLast?_cons_cons] using hlast
      · have hrec : (recvRun fileSize rest (t + c)) = ⟨finishRecv fileSize (t + c), [], []⟩ := by
          rw [recvRun.eq_def]
          simp [htc]
        rw [hrec] at h ⊢
        simp only at h
        simp only [finishRecv] at h
        by_cases heq : t + c = fileSize
        · simp [heq]
        · simp [heq] at h

/-! ## Accept-loop lemmas -/

/-- With the retry budget exhausted, the accept loop returns
`ConnectionFailed`. -/
theorem sendLoop_stop (fileSize : Nat) (outs : List AcceptOutcome) {r : Nat}
    (hr : ¬ r < MAX_RETRIES) : sendLoop fileSize outs r = SlkrdResult.connectionFailed := by
  rw [sendLoop.eq_def]
  simp [hr]

/-- With events exhausted and budget left, the loop is still waiting. -/
theorem sendLoop_nil (fileSize : Nat) {r : Nat} (hr : r < MAX_RETRIES) :
    sendLoop fileSize [] r = SlkrdResult.pending := by
  rw [sendLoop]
  simp [hr]

/-- A `WouldBlock` accept result leaves the retry budget unchanged and
the loop running. -/
theorem sendLoop_wouldBlock (fileSize : Nat) {rest : List AcceptOutcome} {r : Nat}
    (hr : r < MAX_RETRIES) :
    sendLoop fileSize (AcceptOutcome.wouldBlock :: rest) r = sendLoop fileSize rest r := by
  conv_lhs => rw [sendLoop]
  simp [hr]

/-- A real accept error consumes one unit of the retry budget. -/
theorem sendLoop_acceptErr (fileSize : Nat) {rest : List AcceptOutcome} {r : Nat}
    (hr : r < MAX_RETRIES) :
    sendLoop fileSize (AcceptOutcome.acceptErr :: rest) r = sendLoop fileSize rest (r + 1) := by
  conv_lhs => rw [sendLoop]
  simp [hr]

/-- A propagated connection error terminates `send_file` with that
error's `SlkrdResult`. -/
theorem sendLoop_connFail (fileSize : Nat) {rest : List AcceptOutcome} {r : Nat}
    (e : ConnErr) (hr : r < MAX_RETRIES) :
    sendLoop fileSize (AcceptOutcome.connFail e :: rest) r = e.toResult := by
  conv_lhs => rw [sendLoop]
  simp [hr]

/-- A connection whose chunk loop moves exactly `file_size` bytes makes
`send_file` return `Ok` — no passcode is consulted. -/
theorem sendLoop_conn_done (fileSize : Nat) {reads : List Nat} {rest : List AcceptOutcome}
    {r : Nat} (hr : r < MAX_RETRIES) (hdone : (sendRun fileSize reads 0).transferred = fileSize) :
    sendLoop fileSize (AcceptOutcome.conn reads :: rest) r = SlkrdResult.ok := by
  conv_lhs => rw [sendLoop]
  simp [hr, hdone]

/-- A connection whose chunk loop falls short of `file_size` does not
terminate `send_file`: the loop continues on the remaining events with
the retry budget unchanged. -/
theorem sendLoop_conn_incomplete (fileSize : Nat) {reads : List Nat}
    {rest : List AcceptOutcome} {r : Nat} (hr : r < MAX_RETRIES)
    (hne : (sendRun fileSize reads 0).transferred ≠ fileSize) :
    sendLoop fileSize (AcceptOutcome.conn reads :: rest) r = sendLoop fileSize rest r := by
  conv_lhs => rw [sendLoop]
  simp [hr, hne]

/-- The accept loop never produces `IncompleteTransfer`: the sender has
no code path reporting a byte-count mismatch. -/
theorem sendLoop_ne_incomplete (fileSize : Nat) : ∀ (outs : List AcceptOutcome) (r a b : Nat),
    sendLoop fileSize outs r ≠ SlkrdResult.incompleteTransfer a b := by
  intro outs
  induction outs with
  | nil =>
    intro r a b
    by_cases hr : r < MAX_RETRIES
    · rw [sendLoop_nil fileSize hr]; simp
    · rw [sendLoop_stop fileSize [] hr]; simp
  | cons o rest ih =>
    intro r a b
    by_cases hr : r < MAX_RETRIES
    · cases o with
      | wouldBlock => rw [sendLoop_wouldBlock fileSize hr]; exact ih r a b
      | acceptErr => rw [sendLoop_acceptErr fileSize hr]; exact ih (r + 1) a b
      | connFail e => rw [sendLoop_connFail fileSize e hr]; cases e <;> simp [ConnErr.toResult]
      | conn reads =>
        by_cases hdone : (sendRun fileSize reads 0).transferred = fileSize
        · rw [sendLoop_conn_done fileSize hr hdone]; simp
        · rw [sendLoop_conn_incomplete fileSize hr hdone]; exact ih r a b
    · rw [sendLoop_stop fileSize _ hr]; simp

/-- If no peer ever connects (every accept yields `WouldBlock`), the
loop consumes no retry budget and is still waiting after any finite
number of iterations — it never terminates, in particular never with
`Timeout`. -/
theorem sendLoop_all_wouldBlock (fileSize : Nat) : ∀ (outs : List AcceptOutcome) {r : Nat},
    (∀ o ∈ outs, o = AcceptOutcome.wouldBlock) → r < MAX_RETRIES →
    sendLoop fileSize outs r = SlkrdResult.pending := by
  intro outs
  induction outs with
  | nil => intro r _ hr; exact sendLoop_nil fileSize hr
  | cons o rest ih =>
    intro r hall hr
    have ho : o = AcceptOutcome.wouldBlock := hall o (by simp)
    subst ho
    rw [sendLoop_wouldBlock fileSize hr]
    exact ih (fun o' ho' => hall o' (by simp [ho'])) hr

/-! ## Little-endian encoding lemmas -/

/-- `leBytes k n` has length `k`. -/
theorem leBytes_length : ∀ (k n : Nat), (leBytes k n).length = k := by
  intro k
  induction k with
  | zero => intro n; rfl
  | succ k ih => intro n; simp [leBytes, ih]

/-- Decoding inverts encoding modulo `256 ^ k`. -/
theorem leToNat_leBytes : ∀ (k n : Nat), leToNat (leBytes k n) = n % 256 ^ k := by
  intro k
  induction k with
  | zero => intro n; simp [leBytes, leToNat, Nat.mod_one]
  | succ k ih =>
    intro n
    rw [leBytes, leToNat, ih]
    rw [Nat.pow_succ, Nat.mul_comm (256 ^ k) 256, Nat.mod_mul]

/-- The 8-byte little-endian size header decodes to the file size for
any size below `2 ^ 64`. -/
theorem leToNat_u64le {n : Nat} (h : n < 2 ^ 64) : leToNat (u64le n) = n := by
  rw [u64le, leToNat_leBytes]
  have : (256 : Nat) ^ 8 = 2 ^ 64 := by norm_num
  rw [this]
  exact Nat.mod_eq_of_lt h

/-- The size header is exactly 8 bytes. -/
theorem u64le_length (n : Nat) : (u64le n).length = 8 :=
  leBytes_length 8 n

/-! ## Receive-path lemmas -/

/-- With a valid passcode, a discovered sender, and a free destination
path, `receive_file` runs the chunk loop after creating the file. -/
theorem receive_file_run {pc f : List Char} {env : RecvEnv}
    (hval : validate_passcode pc = true)
    (hfind : findSender pc env.datagrams = some f)
    (hdisk : env.onDisk f = false) :
    receive_file pc env =
      ((recvRun env.fileSize env.chunks 0).result,
       (recvRun env.fileSize env.chunks 0).events,
       FileEff.create f :: (recvRun env.fileSize env.chunks 0).writes.map FileEff.writeBytes) := by
  unfold receive_file
  simp [hval, hfind, hdisk]

/-! ## Claim theorems -/

/-- Claim C1, counterexample: contrary to the claim, the receiver's
first action on the established session is reading the 8 size bytes —
it never writes its passcode bytes (here `"482913"`) on the session at
all — and the sender's first action is writing the size header, with
no passcode read or comparison before it. -/
theorem claim_C1_counterexample :
    (receiverStreamActs []).head? = some (StreamAct.readExact 8) ∧
    StreamAct.write [52, 56, 50, 57, 49, 51] ∉ receiverStreamActs [] ∧
    (senderStreamActs 150000 []).head? = some (StreamAct.write (u64le 150000)) := by
  decide

/-- Claim C1, amended: no passcode crosses the session. The sender's
first session action writes the 8-byte size (nothing is read before
it), the receiver's only session write is the SDP answer (never the
passcode), and the sender serves any accepted connection: a completed
chunk loop yields `Ok` with no passcode comparison. Passcode checking
happens only in the receiver's filtering of UDP discovery datagrams. -/
theorem claim_C1_no_passcode_on_session :
    (∀ (fileSize : Nat) (offer : List Nat),
      (senderStreamActs fileSize offer).head? = some (StreamAct.write (u64le fileSize))) ∧
    (∀ (answer b : List Nat), StreamAct.write b ∈ receiverStreamActs answer → b = answer) ∧
    (∀ (fileSize : Nat) (reads : List Nat) (rest : List AcceptOutcome) (r : Nat),
      r < MAX_RETRIES → (sendRun fileSize reads 0).transferred = fileSize →
      sendLoop fileSize (AcceptOutcome.conn reads :: rest) r = SlkrdResult.ok) := by
  refine ⟨fun _ _ => rfl, ?_, ?_⟩
  · intro ans b hb
    simp [receiverStreamActs] at hb
    exact hb
  · intro fileSize reads rest r hr hdone
    exact sendLoop_conn_done fileSize hr hdone

/-- Claim C1, witness: the amended facts instantiated at a concrete
file size and a connection that completes its transfer. -/
theorem claim_C1_witness :
    (senderStreamActs 150000 []).head? = some (StreamAct.write (u64le 150000)) ∧
    sendLoop 150000 [AcceptOutcome.conn [150000]] 0 = SlkrdResult.ok :=
  ⟨claim_C1_no_passcode_on_session.1 150000 [],
   claim_C1_no_passcode_on_session.2.2 150000 [150000] [] 0 (by decide) (by decide)⟩

/-- Claim C2: when the stream stops yielding data after the receiver
has written only `k < file_size` bytes (the supplied nonzero chunks
sum to `k` and then run out), `receive_file` reports
`IncompleteTransfer(k, file_size)` and never success. -/
theorem claim_C2_incomplete_receive {pc f : List Char} {env : RecvEnv} {k : Nat}
    (hval : validate_passcode pc = true)
    (hfind : findSender pc env.datagrams = some f)
    (hdisk : env.onDisk f = false)
    (h0 : 0 ∉ env.chunks) (hsum : env.chunks.sum = k) (hk : k < env.fileSize) :
    (receive_file pc env).1 = SlkrdResult.incompleteTransfer k env.fileSize ∧
    (receive_file pc env).1 ≠ SlkrdResult.ok := by
  subst hsum
  have hrec := recvRun_out_of_data env.fileSize env.chunks 0 h0 (by omega)
  rw [receive_file_run hval hfind hdisk]
  simp only at hrec ⊢
  rw [hrec]
  simp

/-- Claim C2, witness: a 10-byte transfer whose stream dies after
chunks of 4 and 3 bytes reports `IncompleteTransfer(7, 10)`. -/
theorem claim_C2_witness :
    (receive_file ['4', '8', '2', '9', '1', '3']
      ⟨[mkAnnouncement ['4', '8', '2', '9', '1', '3'] ['f']], fun _ => false, 10, [4, 3]⟩).1 =
      SlkrdResult.incompleteTransfer 7 10 :=
  (@claim_C2_incomplete_receive ['4', '8', '2', '9', '1', '3'] ['f']
    ⟨[mkAnnouncement ['4', '8', '2', '9', '1', '3'] ['f']], fun _ => false, 10, [4, 3]⟩ 7
    (by decide) (by decide) rfl (by decide) (by decide) (by decide)).1

/-- Claim C3, counterexample: a run whose only connection's chunk loop
ends with `bytes_moved = 100 ≠ 200 = file_size` makes `send_file`
fall back into the accept loop (still waiting with events exhausted;
`ConnectionFailed` once the retry budget is later consumed) — it does
not report `IncompleteTransfer(100, 200)`. -/
theorem claim_C3_counterexample :
    (sendRun 200 [100] 0).transferred = 100 ∧
    send_file true 200 [AcceptOutcome.conn [100]] = SlkrdResult.pending ∧
    send_file true 200 [AcceptOutcome.conn [100], AcceptOutcome.acceptErr,
      AcceptOutcome.acceptErr, AcceptOutcome.acceptErr] = SlkrdResult.connectionFailed ∧
    SlkrdResult.pending ≠ SlkrdResult.incompleteTransfer 100 200 ∧
    SlkrdResult.connectionFailed ≠ SlkrdResult.incompleteTransfer 100 200 := by
  decide

/-- Claim C3, amended: a chunk loop that completes with
`bytes_moved ≠ file_size` does not terminate `send_file`; control
returns to the accept loop with the retry budget unchanged, and the
send path can never return `IncompleteTransfer` at all. -/
theorem claim_C3_sender_never_incomplete :
    (∀ (fileSize : Nat) (reads : List Nat) (rest : List AcceptOutcome) (r : Nat),
      r < MAX_RETRIES → (sendRun fileSize reads 0).transferred ≠ fileSize →
      sendLoop fileSize (AcceptOutcome.conn reads :: rest) r = sendLoop fileSize rest r) ∧
    (∀ (sourceExists : Bool) (fileSize : Nat) (outs : List AcceptOutcome) (a b : Nat),
      send_file sourceExists fileSize outs ≠ SlkrdResult.incompleteTransfer a b) := by
  constructor
  · intro fileSize reads rest r hr hne
    exact sendLoop_conn_incomplete fileSize hr hne
  · intro sourceExists fileSize outs a b
    cases sourceExists with
    | true =>
      simp only [send_file, if_pos]
      exact sendLoop_ne_incomplete fileSize outs 0 a b
    | false => simp [send_file]

/-- Claim C3, witness: the amended facts instantiated at a concrete
incomplete connection. -/
theorem claim_C3_witness :
    sendLoop 200 [AcceptOutcome.conn [100]] 0 = sendLoop 200 [] 0 ∧
    send_file true 200 [AcceptOutcome.conn [100]] ≠ SlkrdResult.incompleteTransfer 100 200 :=
  ⟨claim_C3_sender_never_incomplete.1 200 [100] [] 0 (by decide) (by decide),
   claim_C3_sender_never_incomplete.2 true 200 [AcceptOutcome.conn [100]] 100 200⟩

/-- Claim C4, counterexample: for file size 150000 and filename
`"a.txt"` the bytes the sender writes before signaling and payload are
the bare 8-byte size — not the claimed size-plus-length-prefixed
filename header, under either a 1-byte or an 8-byte length prefix. -/
theorem claim_C4_counterexample :
    (senderHeaderBytes 150000).length = 8 ∧
    senderHeaderBytes 150000 ≠ specWireHeader1 150000 [97, 46, 116, 120, 116] ∧
    senderHeaderBytes 150000 ≠ specWireHeader8 150000 [97, 46, 116, 120, 116] := by
  decide

/-- Claim C4, amended: the only wire header is the 8-byte little-endian
file size, written first on the session and read first by the
receiver, decoding to the declared size; the filename is not on the
session at all — it travels in the discovery announcement, whose
filter recovers it exactly. -/
theorem claim_C4_size_only_header :
    (∀ (fileSize : Nat) (offer : List Nat),
      (senderStreamActs fileSize offer).head? =
        some (StreamAct.write (senderHeaderBytes fileSize))) ∧
    (∀ fileSize : Nat, (senderHeaderBytes fileSize).length = 8) ∧
    (∀ answer : List Nat, (receiverStreamActs answer).head? = some (StreamAct.readExact 8)) ∧
    (∀ fileSize : Nat, fileSize < 2 ^ 64 → leToNat (senderHeaderBytes fileSize) = fileSize) ∧
    (∀ pass name : List Char, ':' ∉ pass → ':' ∉ name →
      parseAnnouncement pass (mkAnnouncement pass name) = some name) := by
  refine ⟨fun _ _ => rfl, fun n => u64le_length n, fun _ => rfl, fun _ h => leToNat_u64le h, ?_⟩
  intro pass name hp hn
  exact parseAnnouncement_eq_some.mpr ⟨rfl, hp, hn⟩

/-- Claim C4, witness: the amended facts instantiated at size 150000
and filename `"a.txt"`. -/
theorem claim_C4_witness :
    leToNat (senderHeaderBytes 150000) = 150000 ∧
    parseAnnouncement ['4', '8', '2', '9', '1', '3']
      (mkAnnouncement ['4', '8', '2', '9', '1', '3'] ['a', '.', 't', 'x', 't']) =
      some ['a', '.', 't', 'x', 't'] :=
  ⟨claim_C4_size_only_header.2.2.2.1 150000 (by norm_num),
   claim_C4_size_only_header.2.2.2.2 ['4', '8', '2', '9', '1', '3']
     ['a', '.', 't', 'x', 't'] (by decide) (by decide)⟩

/-- Claim C5, counterexample: the sender's read buffer is
`BUFFER_SIZE = 1 MiB`, not the configured `chunk_size` default of
65536, so a single legitimate read of 150000 bytes produces one
payload write of 150000 bytes — not the claimed three chunks of
65536, 65536 and 18928 — and that write exceeds 65536. -/
theorem claim_C5_counterexample :
    150000 ≤ BUFFER_SIZE ∧
    (sendRun 150000 [150000] 0).chunks = [150000] ∧
    (sendRun 150000 [150000] 0).chunks ≠ [65536, 65536, 18928] ∧
    ∃ c ∈ (sendRun 150000 [150000] 0).chunks, Config.default.chunk_size < c := by
  decide

/-- Claim C5, amended: every payload write the sender performs carries
at most `BUFFER_SIZE = 1048576` bytes (the bound of its read buffer);
`Config::default().chunk_size` is 65536 but is not consulted by the
send path, and a 150000-byte file read in one piece travels as the
single chunk `[150000]`. -/
theorem claim_C5_chunk_bound :
    BUFFER_SIZE = 1048576 ∧
    Config.default.chunk_size = 65536 ∧
    (∀ (fileSize : Nat) (reads : List Nat),
      (∀ n ∈ reads, n ≤ BUFFER_SIZE) →
      ∀ c ∈ (sendRun fileSize reads 0).chunks, c ≤ BUFFER_SIZE) ∧
    (sendRun 150000 [150000] 0).chunks = [150000] := by
  refine ⟨rfl, rfl, ?_, by decide⟩
  intro fileSize reads h
  exact sendRun_chunks_le fileSize BUFFER_SIZE reads 0 h

/-- Claim C5, witness: the chunk bound instantiated at a concrete run
with two 1000-byte reads. -/
theorem claim_C5_witness : (1000 : Nat) ≤ BUFFER_SIZE :=
  claim_C5_chunk_bound.2.2.1 2000 [1000, 1000] (by decide) 1000 (by decide)

/-- Claim C6: every generated passcode is accepted by
`validate_passcode`, and every candidate of the wrong length or
containing a character outside the digit alphabet is rejected. -/
theorem claim_C6_generate_validate :
    (∀ draws : Nat → Fin 10, validate_passcode (generate_passcode draws) = true) ∧
    (∀ s : List Char, s.length ≠ PASSCODE_LENGTH → validate_passcode s = false) ∧
    (∀ (s : List Char) (c : Char), c ∈ s → c ∉ CHARSET → validate_passcode s = false) :=
  ⟨validate_generate,
   fun _ h => validate_wrong_length h,
   fun _ _ hc hout => validate_outside_alphabet hc hout⟩

/-- Claim C6, witness: a concrete generated passcode is accepted; a
3-character candidate and a candidate containing `'x'` are rejected. -/
theorem claim_C6_witness :
    validate_passcode (generate_passcode (fun _ => 7)) = true ∧
    validate_passcode ['1', '2', '3'] = false ∧
    validate_passcode ['1', '2', '3', '4', '5', 'x'] = false :=
  ⟨claim_C6_generate_validate.1 (fun _ => 7),
   claim_C6_generate_validate.2.1 ['1', '2', '3'] (by decide),
   claim_C6_generate_validate.2.2 ['1', '2', '3', '4', '5', 'x'] 'x' (by decide) (by decide)⟩

/-- Claim C7: when the discovered filename already exists on disk,
`receive_file` returns `FileExists` with no progress events and an
empty file-effect trace — the destination is neither created,
truncated, opened for writing nor written. -/
theorem claim_C7_dest_exists {pc f : List Char} {env : RecvEnv}
    (hval : validate_passcode pc = true)
    (hfind : findSender pc env.datagrams = some f)
    (hdisk : env.onDisk f = true) :
    receive_file pc env = (SlkrdResult.fileExists, [], []) := by
  unfold receive_file
  simp [hval, hfind, hdisk]

/-- Claim C7, witness: a concrete receive attempt against an existing
destination returns `FileExists` with no file effects. -/
theorem claim_C7_witness :
    receive_file ['4', '8', '2', '9', '1', '3']
      ⟨[mkAnnouncement ['4', '8', '2', '9', '1', '3'] ['f']], fun _ => true, 10, [4, 3]⟩ =
      (SlkrdResult.fileExists, [], []) :=
  @claim_C7_dest_exists ['4', '8', '2', '9', '1', '3'] ['f']
    ⟨[mkAnnouncement ['4', '8', '2', '9', '1', '3'] ['f']], fun _ => true, 10, [4, 3]⟩
    (by decide) (by decide) rfl

/-- Claim C8, counterexample: with no peer ever connecting (every
accept yields `WouldBlock`) the sender is still waiting after any
number of broadcasts — the budget is untouched and nothing times out —
and when the budget is consumed by three failed accepts the result is
`ConnectionFailed`, not `Timeout`. -/
theorem claim_C8_counterexample :
    send_file true 100 [AcceptOutcome.wouldBlock, AcceptOutcome.wouldBlock,
      AcceptOutcome.wouldBlock, AcceptOutcome.wouldBlock, AcceptOutcome.wouldBlock] =
      SlkrdResult.pending ∧
    send_file true 100 [AcceptOutcome.acceptErr, AcceptOutcome.acceptErr,
      AcceptOutcome.acceptErr] = SlkrdResult.connectionFailed ∧
    SlkrdResult.pending ≠ SlkrdResult.timeout ∧
    SlkrdResult.connectionFailed ≠ SlkrdResult.timeout := by
  decide

/-- Claim C8, amended: a peerless wait never terminates (`WouldBlock`
leaves the budget unchanged, so all-`WouldBlock` event lists leave the
loop waiting), and exhausting the `MAX_RETRIES = 3` budget — which
only real accept errors consume — returns `ConnectionFailed`, not
`Timeout`. -/
theorem claim_C8_retry_exhaustion :
    (∀ (fileSize : Nat) (outs : List AcceptOutcome),
      (∀ o ∈ outs, o = AcceptOutcome.wouldBlock) →
      send_file true fileSize outs = SlkrdResult.pending) ∧
    (∀ (fileSize : Nat) (outs : List AcceptOutcome) (r : Nat),
      ¬ r < MAX_RETRIES → sendLoop fileSize outs r = SlkrdResult.connectionFailed) ∧
    (∀ (fileSize : Nat) (rest : List AcceptOutcome) (r : Nat),
      r < MAX_RETRIES →
      sendLoop fileSize (AcceptOutcome.wouldBlock :: rest) r = sendLoop fileSize rest r) := by
  refine ⟨?_, ?_, ?_⟩
  · intro fileSize outs hall
    simp only [send_file, if_pos]
    exact sendLoop_all_wouldBlock fileSize outs hall (by decide)
  · intro fileSize outs r hr
    exact sendLoop_stop fileSize outs hr
  · intro fileSize rest r hr
    exact sendLoop_wouldBlock fileSize hr

/-- Claim C8, witness: the amended facts instantiated concretely. -/
theorem claim_C8_witness :
    send_file true 100 [AcceptOutcome.wouldBlock] = SlkrdResult.pending ∧
    sendLoop 100 [] 3 = SlkrdResult.connectionFailed :=
  ⟨claim_C8_retry_exhaustion.1 100 [AcceptOutcome.wouldBlock] (by decide),
   claim_C8_retry_exhaustion.2.1 100 [] 3 (by decide)⟩

/-- Claim C9: on both paths the progress events are monotonically
non-decreasing, and on a successful transfer of a positive-size file
the final progress event carries exactly `file_size`. -/
theorem claim_C9_progress_monotone :
    (∀ (fileSize : Nat) (reads : List Nat),
      List.Chain' (· ≤ ·) (sendRun fileSize reads 0).events) ∧
    (∀ (fileSize : Nat) (reads : List Nat),
      (sendRun fileSize reads 0).transferred = fileSize → 0 < fileSize →
      (sendRun fileSize reads 0).events.getLast? = some fileSize) ∧
    (∀ (fileSize : Nat) (chunks : List Nat),
      List.Chain' (· ≤ ·) (recvRun fileSize chunks 0).events) ∧
    (∀ (fileSize : Nat) (chunks : List Nat),
      (recvRun fileSize chunks 0).result = SlkrdResult.ok → 0 < fileSize →
      (recvRun fileSize chunks 0).events.getLast? = some fileSize) :=
  ⟨fun fileSize reads => sendRun_chain fileSize reads 0,
   fun fileSize reads h h0 => sendRun_last fileSize reads 0 h h0,
   fun fileSize chunks => recvRun_chain fileSize chunks 0,
   fun fileSize chunks h h0 => recvRun_last fileSize chunks 0 h h0⟩

/-- Claim C9, witness: a 7-byte transfer in chunks of 4 and 3 has
non-decreasing events ending at 7 on both paths. -/
theorem claim_C9_witness :
    List.Chain' (· ≤ ·) (sendRun 7 [4, 3] 0).events ∧
    (sendRun 7 [4, 3] 0).events.getLast? = some 7 ∧
    (recvRun 7 [4, 3] 0).events.getLast? = some 7 :=
  ⟨claim_C9_progress_monotone.1 7 [4, 3],
   claim_C9_progress_monotone.2.1 7 [4, 3] (by decide) (by decide),
   claim_C9_progress_monotone.2.2.2 7 [4, 3] (by decide) (by decide)⟩

/-- Claim C10: a datagram is accepted exactly when it is the `SLKRD:`
tag, the target passcode and one colon-free filename field (so the
remainder splits on `':'` into exactly two fields with the first equal
to the passcode); every other datagram is skipped with the search
continuing; and a matching-passcode announcement whose filename
contains `':'` is never accepted, so such a file cannot be discovered
in broadcast mode. -/
theorem claim_C10_announcement_filter :
    (∀ pass msg f : List Char,
      parseAnnouncement pass msg = some f ↔
        msg = slkrdTag ++ pass ++ ':' :: f ∧ ':' ∉ pass ∧ ':' ∉ f) ∧
    (∀ (pass msg : List Char) (rest : List (List Char)),
      parseAnnouncement pass msg = none →
      findSender pass (msg :: rest) = findSender pass rest) ∧
    (∀ pass name : List Char, ':' ∈ name →
      parseAnnouncement pass (mkAnnouncement pass name) = none) :=
  ⟨fun _ _ _ => parseAnnouncement_eq_some,
   fun _ _ _ h => findSender_skip h,
   fun _ _ h => parseAnnouncement_colon_filename h⟩

/-- Claim C10, witness: the filter accepts a well-formed announcement,
skips a foreign datagram, and rejects a colon-bearing filename. -/
theorem claim_C10_witness :
    parseAnnouncement ['1', '2'] (['S', 'L', 'K', 'R', 'D', ':'] ++ ['1', '2'] ++ [':', 'f']) =
      some ['f'] ∧
    findSender ['1', '2'] [['x'], mkAnnouncement ['1', '2'] ['f']] =
      findSender ['1', '2'] [mkAnnouncement ['1', '2'] ['f']] ∧
    parseAnnouncement ['1', '2'] (mkAnnouncement ['1', '2'] ['a', ':', 'b']) = none :=
  ⟨(claim_C10_announcement_filter.1 ['1', '2'] _ ['f']).mpr ⟨rfl, by decide, by decide⟩,
   claim_C10_announcement_filter.2.1 ['1', '2'] ['x'] [mkAnnouncement ['1', '2'] ['f']]
     (by decide),
   claim_C10_announcement_filter.2.2 ['1', '2'] ['a', ':', 'b'] (by decide)⟩

end Slkrd
